import Mathlib

/-!
Shallow embedding of the latency_lab shared-memory mailbox
(`src/shmem_lab.rs`) and the envelope codec (`src/shmem_ping.rs`).

Machine words are modelled as `Nat` (the state cell is a `u64`; all
values stored by the program are tiny, so no wrap-around occurs and
none is modelled).  Wall-clock time (`SystemTime`) is modelled as a
`Nat`-valued clock supplied by the environment.  The busy-wait loops
of `send` / `receive` / `open_shmem` are modelled as fuel-indexed
recursions over an environment schedule: `obs i` is the value the
i-th `state.load(SeqCst)` observes and `now i` the value the i-th
`SystemTime::now()` call inside the loop returns.  A `none` result
means the fuel ran out while the loop was still spinning; every
theorem quantifies over the fuel, so nothing depends on a particular
bound.  Rust panics (slice index out of range, `unwrap` on `Err`)
are modelled as `none : Option _`.
-/

namespace LatencyLab

/-- `STATE_READY_TO_WRITE` from shmem_lab.rs (`const STATE_READY_TO_WRITE: u64 = 2`). -/
def STATE_READY_TO_WRITE : Nat := 2

/-- `STATE_READY_TO_READ` from shmem_lab.rs (`const STATE_READY_TO_READ: u64 = 3`). -/
def STATE_READY_TO_READ : Nat := 3

/-- `DEFAULT_SIZE` from shmem_lab.rs (`const DEFAULT_SIZE: usize = 64 * 1024`). -/
def DEFAULT_SIZE : Nat := 64 * 1024

/-- `pub enum ShmemLabError { Timeout }` from shmem_lab.rs: the sole error kind. -/
inductive ShmemLabError where
  | Timeout
deriving DecidableEq, Repr, Fintype

/-- `raw_sync::Timeout`: either infinite or a bounded duration. -/
inductive RsTimeout where
  | Infinite
  | Val (dur : Nat)
deriving DecidableEq, Repr

/-- The `timeout_at` computation done once at the start of `send`/`receive`:
`Infinite => None`, `Val(dur) => Some(SystemTime::now() + dur)`. -/
def timeoutAt (t : RsTimeout) (start : Nat) : Option Nat :=
  match t with
  | .Infinite => none
  | .Val dur => some (start + dur)

/-- The channel: the 8-byte atomic StateCell plus the DataWindow content,
the latter abstracted to the payload type `T` (the sender stores a `T` at
base+8, the receiver reads a `T` from base+8). -/
structure Channel (T : Type) where
  state : Nat
  data : T
deriving DecidableEq, Repr

/-- Shared-memory access events performed by one `send`/`receive` call, in
program order: atomic loads/stores of the StateCell, clock reads for the
deadline check, and payload reads/writes of the DataWindow. -/
inductive Ev (T : Type) where
  | load (s : Nat)
  | timeCheck (t : Nat)
  | writeData (v : T)
  | readData (v : T)
  | store (s : Nat)
deriving DecidableEq, Repr

/-- Outcome of the spin-wait loop: timed out, or observed the wanted state
after `spins` failed polls. -/
inductive WaitOut where
  | timedOut
  | success (spins : Nat)
deriving DecidableEq, Repr

/-- The spin loop shared by `ShmemSender::send` and `ShmemReceiver::receive`:

    while state.load(SeqCst) != want {
        if let Some(at) = timeout_at { if SystemTime::now() > at { return Timeout } }
        spin_count += 1;
    }

`i` is the current iteration index (and equals the running `spin_count`,
which is incremented once per completed failed iteration); `obs i` is what
the i-th load observes, `now i` what the i-th deadline check's clock call
returns.  Returns the outcome together with the event trace of the loop. -/
def waitLoop (T : Type) (want : Nat) (tAt : Option Nat) (obs now : Nat → Nat) :
    Nat → Nat → Option (WaitOut × List (Ev T))
  | 0, _ => none
  | fuel + 1, i =>
    if obs i = want then
      some (.success i, [.load (obs i)])
    else
      match tAt with
      | some dl =>
        if now i > dl then
          some (.timedOut, [.load (obs i), .timeCheck (now i)])
        else
          (waitLoop T want tAt obs now fuel (i + 1)).map
            (fun p => (p.1, .load (obs i) :: .timeCheck (now i) :: p.2))
      | none =>
        (waitLoop T want tAt obs now fuel (i + 1)).map
          (fun p => (p.1, .load (obs i) :: p.2))

/-- `ShmemSender::send(value, timeout)`: compute `timeout_at` once, spin for
`STATE_READY_TO_WRITE`, then write the payload into the DataWindow and store
`STATE_READY_TO_READ`.  Result: `Except.error` is the `Err(Timeout)` return,
`Except.ok spins` is `Ok(Success { value: (), spin_count })`; paired with the
trace of shared-memory events the call performed. -/
def sendRun (T : Type) (v : T) (t : RsTimeout) (start : Nat) (obs now : Nat → Nat)
    (fuel : Nat) : Option (Except ShmemLabError Nat × List (Ev T)) :=
  match waitLoop T STATE_READY_TO_WRITE (timeoutAt t start) obs now fuel 0 with
  | none => none
  | some (.timedOut, tr) => some (.error .Timeout, tr)
  | some (.success spins, tr) =>
    some (.ok spins, tr ++ [.writeData v, .store STATE_READY_TO_READ])

/-- `ShmemReceiver::receive(timeout)`: compute `timeout_at` once, spin for
`STATE_READY_TO_READ`, then read the payload from the DataWindow (its content
at that moment is `curData`) and store `STATE_READY_TO_WRITE`.  `Except.ok`
carries `Success { value, spin_count }`. -/
def receiveRun (T : Type) (t : RsTimeout) (start : Nat) (obs now : Nat → Nat)
    (curData : T) (fuel : Nat) :
    Option (Except ShmemLabError (T × Nat) × List (Ev T)) :=
  match waitLoop T STATE_READY_TO_READ (timeoutAt t start) obs now fuel 0 with
  | none => none
  | some (.timedOut, tr) => some (.error .Timeout, tr)
  | some (.success spins, tr) =>
    some (.ok (curData, spins), tr ++ [.readData curData, .store STATE_READY_TO_WRITE])

/-- Effect of one shared-memory event on the channel: a store updates the
StateCell, a payload write updates the DataWindow, everything else reads. -/
def applyEv (T : Type) (c : Channel T) : Ev T → Channel T
  | .writeData v => { c with data := v }
  | .store s => { c with state := s }
  | _ => c

/-- Cumulative effect of a trace on the channel. -/
def applyEvents (T : Type) (tr : List (Ev T)) (c : Channel T) : Channel T :=
  tr.foldl (applyEv T) c

/-- The StateCell values stored by a trace, in order. -/
def storesOf (T : Type) (tr : List (Ev T)) : List Nat :=
  tr.filterMap (fun e => match e with | .store s => some s | _ => none)

/-- One `send` call in the strictly alternating (interference-free) scenario:
the StateCell holds `c.state` at every poll, so the loop either succeeds at
the first poll or blocks; on success the trace is applied to the channel. -/
def sendStep (T : Type) (c : Channel T) (v : T) : Option (Channel T) :=
  match sendRun T v .Infinite 0 (fun _ => c.state) (fun _ => 0) 1 with
  | some (.ok _, tr) => some (applyEvents T tr c)
  | _ => none

/-- One `receive` call in the strictly alternating scenario: the StateCell
holds `c.state` and the DataWindow holds `c.data` throughout. -/
def recvStep (T : Type) (c : Channel T) : Option (T × Channel T) :=
  match receiveRun T .Infinite 0 (fun _ => c.state) (fun _ => 0) c.data 1 with
  | some (.ok (v, _), tr) => some (v, applyEvents T tr c)
  | _ => none

/-- N strictly alternating send/receive pairs: each send is followed by the
matching receive before the next send begins.  Returns the final channel and
the list of received payloads, `none` if any call blocked. -/
def runAlt (T : Type) (c : Channel T) : List T → Option (Channel T × List T)
  | [] => some (c, [])
  | v :: vs =>
    match sendStep T c v with
    | none => none
    | some c1 =>
      match recvStep T c1 with
      | none => none
      | some (r, c2) =>
        match runAlt T c2 vs with
        | none => none
        | some (cf, rs) => some (cf, r :: rs)

/-- The StateCell initialization loop of `open_shmem` (after create-or-attach):

    loop {
        let state_before = state.load(SeqCst);
        if state_before == STATE_READY_TO_READ { break; }
        if state_before == STATE_READY_TO_WRITE { break; }
        if state.compare_exchange(state_before, STATE_READY_TO_WRITE, SeqCst, SeqCst).is_ok() { break; }
    }

`loadObs i` is the value the i-th load observes; `casCur i` is the actual
cell value at the moment of the i-th compare-exchange, so the CAS succeeds
iff `casCur i = loadObs i`.  Returns the StateCell value established or
observed at the break, together with the list of values this caller stored
(via successful CAS), in order. -/
def openLoop (loadObs casCur : Nat → Nat) : Nat → Nat → Option (Nat × List Nat)
  | 0, _ => none
  | fuel + 1, i =>
    if loadObs i = STATE_READY_TO_READ then some (loadObs i, [])
    else if loadObs i = STATE_READY_TO_WRITE then some (loadObs i, [])
    else if casCur i = loadObs i then
      some (STATE_READY_TO_WRITE, [STATE_READY_TO_WRITE])
    else openLoop loadObs casCur fuel (i + 1)

/-- Region layout established by `open_shmem`: the region size as requested,
the `AtomicU64` StateCell at the base address (offset 0), and the data
pointer at base + 8 (`data = data.add(8)`). -/
structure ShmemCtx where
  size : Nat
  stateOff : Nat
  dataOff : Nat
deriving DecidableEq, Repr

/-- Layout part of `open_shmem(name, size)`. -/
def open_shmem_layout (size : Nat) : ShmemCtx :=
  { size := size, stateOff := 0, dataOff := 8 }

/-- `ShmemSender::<T>::open(name)` calls `open_shmem(name, DEFAULT_SIZE)`;
`tSize` stands for `size_of::<T>()`, which the call ignores. -/
def senderOpen (tSize : Nat) : ShmemCtx :=
  open_shmem_layout DEFAULT_SIZE

/-- `ShmemReceiver::<T>::open(name)` calls `open_shmem(name, DEFAULT_SIZE)`,
also ignoring `size_of::<T>()`. -/
def receiverOpen (tSize : Nat) : ShmemCtx :=
  open_shmem_layout DEFAULT_SIZE

/-- Byte offsets written by `*(self.ctx.data as *mut T) = value` in `send`
(equally, read by `(self.ctx.data as *mut T).read()` in `receive`): the
`size_of::<T>()` bytes starting at the data offset, with no bounds check. -/
def sendWriteBytes (ctx : ShmemCtx) (tSize : Nat) : List Nat :=
  (List.range tSize).map (fun k => ctx.dataOff + k)

/-- `MESSAGE_SHMEM_SIZE` from shmem_ping.rs (`64*512`): the fixed byte size
of the `[u8; MESSAGE_SHMEM_SIZE]` payload window. -/
def MESSAGE_SHMEM_SIZE : Nat := 64 * 512

/-- Modelled from the spec: `crate::utils::write_u32_le` (the `utils` module
is not under `src/`); per the spec the envelope starts with "a 4-byte
little-endian unsigned length prefix".  Produces the 4 little-endian bytes
of `n mod 2^32`. -/
def write_u32_le (n : Nat) : List Nat :=
  [n % 256, n / 256 % 256, n / 65536 % 256, n / 16777216 % 256]

/-- Modelled from the spec: `crate::utils::read_u32_le` (the `utils` module
is not under `src/`); reads a 4-byte little-endian unsigned integer from the
start of the buffer. -/
def read_u32_le (b : List Nat) : Nat :=
  b.getD 0 0 + b.getD 1 0 * 256 + b.getD 2 0 * 65536 + b.getD 3 0 * 16777216

/-- `buf[i..i+xs.length].copy_from_slice(xs)` on a byte buffer as a list. -/
def writeAt (α : Type) (w : List α) (i : Nat) (xs : List α) : List α :=
  w.take i ++ xs ++ w.drop (i + xs.length)

/-- The envelope-encoding part of `shmem_ping_send`: given the serialized
payload bytes `json` and the current window content, perform
`write_u32_le(&mut window[0..4], json.len() as u32)` and then
`window[4..json.len()+4].copy_from_slice(json)`.  `none` models the Rust
panic when `json.len() + 4` exceeds the window size. -/
def shmem_ping_encode (json window : List Nat) : Option (List Nat) :=
  if 4 + json.length ≤ window.length then
    some (writeAt Nat (writeAt Nat window 0 (write_u32_le (json.length % 4294967296))) 4 json)
  else none

/-- The envelope-decoding part of `shmem_ping_receive`: read the 4-byte
little-endian prefix `n` from `response[0..4]`, then take `&response[4..n+4]`.
`none` models the Rust panic (slice index out of range) when `n + 4` exceeds
the buffer length. -/
def shmem_ping_decode (response : List Nat) : Option (List Nat) :=
  let n := read_u32_le (response.take 4)
  if n + 4 ≤ response.length then some ((response.drop 4).take n) else none

/-- A received window whose length prefix decodes to 32765, larger than the
32764 content bytes that remain after the 4-byte prefix. -/
def badResponse : List Nat := 253 :: 127 :: 0 :: 0 :: List.replicate 32764 0

/-! ### Characterization of the spin-wait loop -/

/-- Unfolding: with no fuel the loop is still spinning. -/
theorem waitLoop_zero (T : Type) (want : Nat) (tAt : Option Nat) (obs now : Nat → Nat)
    (i : Nat) : waitLoop T want tAt obs now 0 i = none := rfl

/-- Unfolding: one iteration of the loop with no deadline. -/
theorem waitLoop_succ_none (T : Type) (want : Nat) (obs now : Nat → Nat)
    (fuel i : Nat) :
    waitLoop T want none obs now (fuel + 1) i =
      if obs i = want then
        some (.success i, [.load (obs i)])
      else
        (waitLoop T want none obs now fuel (i + 1)).map
          (fun p => (p.1, .load (obs i) :: p.2)) := rfl

/-- Unfolding: one iteration of the loop with a fixed deadline `dl`. -/
theorem waitLoop_succ_some (T : Type) (want dl : Nat) (obs now : Nat → Nat)
    (fuel i : Nat) :
    waitLoop T want (some dl) obs now (fuel + 1) i =
      if obs i = want then
        some (.success i, [.load (obs i)])
      else if now i > dl then
        some (.timedOut, [.load (obs i), .timeCheck (now i)])
      else
        (waitLoop T want (some dl) obs now fuel (i + 1)).map
          (fun p => (p.1, .load (obs i) :: .timeCheck (now i) :: p.2)) := rfl

/-- A successful wait starting at iteration `i`: the spin count is the index
of the first poll at or after `i` that observed `want`, every earlier poll
observed something else, and the trace is wrong-state loads and deadline
checks followed by the final load of `want`. -/
theorem waitLoop_success_spec (T : Type) (want : Nat) (tAt : Option Nat)
    (obs now : Nat → Nat) (fuel : Nat) :
    ∀ (i s : Nat) (tr : List (Ev T)),
      waitLoop T want tAt obs now fuel i = some (.success s, tr) →
      i ≤ s ∧ obs s = want ∧ (∀ j, i ≤ j → j < s → obs j ≠ want) ∧
      ∃ pre, tr = pre ++ [Ev.load want] ∧
        ∀ e ∈ pre, (∃ u, e = Ev.load u ∧ u ≠ want) ∨ ∃ tm, e = Ev.timeCheck tm := by
  induction fuel with
  | zero => intro i s tr h; simp [waitLoop] at h
  | succ fuel ih =>
    intro i s tr h
    by_cases ho : obs i = want
    · have hst : s = i ∧ tr = [Ev.load want] := by
        cases tAt with
        | none => rw [waitLoop_succ_none, if_pos ho, ho] at h; simpa using h.symm
        | some dl => rw [waitLoop_succ_some, if_pos ho, ho] at h; simpa using h.symm
      obtain ⟨hs, htr⟩ := hst
      subst hs
      exact ⟨le_refl s, ho, fun j h1 h2 => absurd (le_trans h1 (le_of_lt h2)) (by omega),
        [], by simpa using htr, by simp⟩
    · cases tAt with
      | none =>
        rw [waitLoop_succ_none, if_neg ho] at h
        obtain ⟨⟨r, tr'⟩, hrec, heq⟩ := Option.map_eq_some'.mp h
        obtain ⟨hr, htr⟩ : r = WaitOut.success s ∧ Ev.load (obs i) :: tr' = tr := by
          simpa using heq
        subst hr
        obtain ⟨h1, h2, h3, pre, hpre, hmem⟩ := ih (i + 1) s tr' hrec
        refine ⟨by omega, h2, ?_, Ev.load (obs i) :: pre, ?_, ?_⟩
        · intro j hji hjs
          rcases Nat.eq_or_lt_of_le hji with rfl | hlt
          · exact ho
          · exact h3 j hlt hjs
        · rw [← htr, hpre]; simp
        · intro e he
          rcases List.mem_cons.mp he with rfl | he'
          · exact Or.inl ⟨obs i, rfl, ho⟩
          · exact hmem e he'
      | some dl =>
        rw [waitLoop_succ_some, if_neg ho] at h
        by_cases ht : now i > dl
        · rw [if_pos ht] at h
          simp at h
        · rw [if_neg ht] at h
          obtain ⟨⟨r, tr'⟩, hrec, heq⟩ := Option.map_eq_some'.mp h
          obtain ⟨hr, htr⟩ : r = WaitOut.success s ∧
              Ev.load (obs i) :: Ev.timeCheck (now i) :: tr' = tr := by simpa using heq
          subst hr
          obtain ⟨h1, h2, h3, pre, hpre, hmem⟩ := ih (i + 1) s tr' hrec
          refine ⟨by omega, h2, ?_, Ev.load (obs i) :: Ev.timeCheck (now i) :: pre, ?_, ?_⟩
          · intro j hji hjs
            rcases Nat.eq_or_lt_of_le hji with rfl | hlt
            · exact ho
            · exact h3 j hlt hjs
          · rw [← htr, hpre]; simp
          · intro e he
            rcases List.mem_cons.mp he with rfl | he'
            · exact Or.inl ⟨obs i, rfl, ho⟩
            · rcases List.mem_cons.mp he' with rfl | he''
              · exact Or.inr ⟨now i, rfl⟩
              · exact hmem e he''

/-- A timed-out wait: the timeout was bounded, some poll at index `k ≥ i`
observed a wrong state with the clock past the fixed deadline, every poll
from `i` to `k` observed a wrong state, every earlier deadline check passed,
and the trace contains only loads and deadline checks (no stores, no payload
access). -/
theorem waitLoop_timeout_spec (T : Type) (want : Nat) (tAt : Option Nat)
    (obs now : Nat → Nat) (fuel : Nat) :
    ∀ (i : Nat) (tr : List (Ev T)),
      waitLoop T want tAt obs now fuel i = some (.timedOut, tr) →
      ∃ dl, tAt = some dl ∧
        (∃ k, i ≤ k ∧ (∀ j, i ≤ j → j ≤ k → obs j ≠ want) ∧ now k > dl ∧
          ∀ j, i ≤ j → j < k → now j ≤ dl) ∧
        ∀ e ∈ tr, (∃ u, e = Ev.load u ∧ u ≠ want) ∨ ∃ tm, e = Ev.timeCheck tm := by
  induction fuel with
  | zero => intro i tr h; simp [waitLoop] at h
  | succ fuel ih =>
    intro i tr h
    by_cases ho : obs i = want
    · cases tAt with
      | none => rw [waitLoop_succ_none, if_pos ho] at h; simp at h
      | some dl => rw [waitLoop_succ_some, if_pos ho] at h; simp at h
    · cases tAt with
      | none =>
        rw [waitLoop_succ_none, if_neg ho] at h
        obtain ⟨⟨r, tr'⟩, hrec, heq⟩ := Option.map_eq_some'.mp h
        obtain ⟨hr, htr⟩ : r = WaitOut.timedOut ∧ Ev.load (obs i) :: tr' = tr := by
          simpa using heq
        subst hr
        obtain ⟨dl, hdl, _, _⟩ := ih (i + 1) tr' hrec
        exact absurd hdl (by simp)
      | some dl =>
        rw [waitLoop_succ_some, if_neg ho] at h
        by_cases ht : now i > dl
        · rw [if_pos ht] at h
          obtain ⟨_, htr⟩ : WaitOut.timedOut = WaitOut.timedOut ∧
              [Ev.load (obs i), Ev.timeCheck (now i)] = tr := by simpa using h
          refine ⟨dl, rfl, ⟨i, le_refl i, ?_, ht, by omega⟩, ?_⟩
          · intro j h1 h2
            obtain rfl : j = i := by omega
            exact ho
          · intro e he
            rw [← htr] at he
            rcases List.mem_cons.mp he with rfl | he'
            · exact Or.inl ⟨obs i, rfl, ho⟩
            · rcases List.mem_cons.mp he' with rfl | he''
              · exact Or.inr ⟨now i, rfl⟩
              · simp at he''
        · rw [if_neg ht] at h
          obtain ⟨⟨r, tr'⟩, hrec, heq⟩ := Option.map_eq_some'.mp h
          obtain ⟨hr, htr⟩ : r = WaitOut.timedOut ∧
              Ev.load (obs i) :: Ev.timeCheck (now i) :: tr' = tr := by simpa using heq
          subst hr
          obtain ⟨dl', hdl', ⟨k, hk1, hk2, hk3, hk4⟩, hmem⟩ := ih (i + 1) tr' hrec
          have hdd : dl' = dl := by simpa using hdl'.symm
          refine ⟨dl, rfl, ⟨k, by omega, ?_, hdd ▸ hk3, ?_⟩, ?_⟩
          · intro j h1 h2
            rcases Nat.eq_or_lt_of_le h1 with rfl | hlt
            · exact ho
            · exact hk2 j hlt h2
          · intro j h1 h2
            rcases Nat.eq_or_lt_of_le h1 with rfl | hlt
            · omega
            · exact hdd ▸ hk4 j hlt h2
          · intro e he
            rw [← htr] at he
            rcases List.mem_cons.mp he with rfl | he'
            · exact Or.inl ⟨obs i, rfl, ho⟩
            · rcases List.mem_cons.mp he' with rfl | he''
              · exact Or.inr ⟨now i, rfl⟩
              · exact hmem e he''

/-! ### Effect of traces on the channel -/

/-- A trace consisting only of loads and clock reads leaves the channel
untouched. -/
theorem applyEvents_readonly (T : Type) (tr : List (Ev T)) :
    ∀ c : Channel T,
      (∀ e ∈ tr, (∃ u, e = Ev.load u) ∨ ∃ tm, e = Ev.timeCheck tm) →
      applyEvents T tr c = c := by
  induction tr with
  | nil => intro c _; rfl
  | cons e tr ih =>
    intro c hmem
    have he : applyEv T c e = c := by
      rcases hmem e (List.mem_cons_self e tr) with ⟨u, rfl⟩ | ⟨tm, rfl⟩ <;> rfl
    show applyEvents T tr (applyEv T c e) = c
    rw [he]
    exact ih c (fun e' he' => hmem e' (List.mem_cons_of_mem e he'))

/-- After applying a trace, the StateCell holds its original value if the
trace stored nothing, and the last stored value otherwise. -/
theorem applyEvents_state (T : Type) (tr : List (Ev T)) :
    ∀ c : Channel T,
      (applyEvents T tr c).state = (storesOf T tr).getLastD c.state := by
  induction tr with
  | nil => intro c; rfl
  | cons e tr ih =>
    intro c
    cases e with
    | load u => simpa [applyEvents, storesOf] using ih c
    | timeCheck tm => simpa [applyEvents, storesOf] using ih c
    | writeData v =>
      have := ih { c with data := v }
      simpa [applyEvents, storesOf] using this
    | readData v => simpa [applyEvents, storesOf] using ih c
    | store s =>
      show (applyEvents T tr { c with state := s }).state =
        (s :: storesOf T tr).getLastD c.state
      rw [List.getLastD_cons]
      exact ih { c with state := s }

/-- The init loop of `open_shmem` only ever breaks on (or establishes) one of
the two valid states, and only ever stores `STATE_READY_TO_WRITE`. -/
theorem openLoop_spec (loadObs casCur : Nat → Nat) (fuel : Nat) :
    ∀ (i res : Nat) (sts : List Nat),
      openLoop loadObs casCur fuel i = some (res, sts) →
      (res = STATE_READY_TO_WRITE ∨ res = STATE_READY_TO_READ) ∧
      (∀ s ∈ sts, s = STATE_READY_TO_WRITE) := by
  induction fuel with
  | zero => intro i res sts h; simp [openLoop] at h
  | succ fuel ih =>
    intro i res sts h
    rw [openLoop] at h
    by_cases h3 : loadObs i = STATE_READY_TO_READ
    · rw [if_pos h3] at h
      obtain ⟨hr, hs⟩ : loadObs i = res ∧ [] = sts := by simpa using h
      exact ⟨Or.inr (hr ▸ h3), by rw [← hs]; simp⟩
    · rw [if_neg h3] at h
      by_cases h2 : loadObs i = STATE_READY_TO_WRITE
      · rw [if_pos h2] at h
        obtain ⟨hr, hs⟩ : loadObs i = res ∧ [] = sts := by simpa using h
        exact ⟨Or.inl (hr ▸ h2), by rw [← hs]; simp⟩
      · rw [if_neg h2] at h
        by_cases hc : casCur i = loadObs i
        · rw [if_pos hc] at h
          obtain ⟨hr, hs⟩ : STATE_READY_TO_WRITE = res ∧ [STATE_READY_TO_WRITE] = sts := by
            simpa using h
          refine ⟨Or.inl hr.symm, ?_⟩
          rw [← hs]
          intro s hs'
          simpa using hs'
        · rw [if_neg hc] at h
          exact ih (i + 1) res sts h

/-! ### Shapes of complete `send` / `receive` calls -/

/-- A `send` call returns `Ok` exactly when the wait succeeded; the trace is
the wait's trace followed by the payload write and the state store. -/
theorem sendRun_ok_iff (T : Type) (v : T) (t : RsTimeout) (start : Nat)
    (obs now : Nat → Nat) (fuel spins : Nat) (tr : List (Ev T)) :
    sendRun T v t start obs now fuel = some (.ok spins, tr) ↔
      ∃ wtr, waitLoop T STATE_READY_TO_WRITE (timeoutAt t start) obs now fuel 0 =
          some (.success spins, wtr) ∧
        tr = wtr ++ [.writeData v, .store STATE_READY_TO_READ] := by
  rw [sendRun]
  cases hw : waitLoop T STATE_READY_TO_WRITE (timeoutAt t start) obs now fuel 0 with
  | none => simp
  | some p =>
    obtain ⟨r, wtr⟩ := p
    cases r with
    | timedOut => simp
    | success s =>
      simp only [Option.some.injEq, Prod.mk.injEq, Except.ok.injEq, WaitOut.success.injEq]
      constructor
      · rintro ⟨rfl, rfl⟩
        exact ⟨wtr, ⟨rfl, rfl⟩, rfl⟩
      · rintro ⟨wtr', ⟨rfl, rfl⟩, rfl⟩
        exact ⟨rfl, rfl⟩

/-- A `send` call returns `Err` exactly when the wait timed out, the error is
always `Timeout`, and the trace is the wait's trace with nothing appended. -/
theorem sendRun_err_iff (T : Type) (v : T) (t : RsTimeout) (start : Nat)
    (obs now : Nat → Nat) (fuel : Nat) (e : ShmemLabError) (tr : List (Ev T)) :
    sendRun T v t start obs now fuel = some (.error e, tr) ↔
      e = .Timeout ∧
      waitLoop T STATE_READY_TO_WRITE (timeoutAt t start) obs now fuel 0 =
        some (.timedOut, tr) := by
  rw [sendRun]
  cases hw : waitLoop T STATE_READY_TO_WRITE (timeoutAt t start) obs now fuel 0 with
  | none => simp
  | some p =>
    obtain ⟨r, wtr⟩ := p
    cases r with
    | timedOut =>
      cases e
      simp [eq_comm]
    | success s => simp

/-- A `receive` call returns `Ok` exactly when the wait succeeded; the value
returned is the DataWindow content, and the trace is the wait's trace
followed by the payload read and the state store. -/
theorem receiveRun_ok_iff (T : Type) (t : RsTimeout) (start : Nat)
    (obs now : Nat → Nat) (curData rv : T) (fuel spins : Nat) (tr : List (Ev T)) :
    receiveRun T t start obs now curData fuel = some (.ok (rv, spins), tr) ↔
      rv = curData ∧
      ∃ wtr, waitLoop T STATE_READY_TO_READ (timeoutAt t start) obs now fuel 0 =
          some (.success spins, wtr) ∧
        tr = wtr ++ [.readData curData, .store STATE_READY_TO_WRITE] := by
  rw [receiveRun]
  cases hw : waitLoop T STATE_READY_TO_READ (timeoutAt t start) obs now fuel 0 with
  | none => simp
  | some p =>
    obtain ⟨r, wtr⟩ := p
    cases r with
    | timedOut => simp
    | success s =>
      simp only [Option.some.injEq, Prod.mk.injEq, Except.ok.injEq, WaitOut.success.injEq]
      constructor
      · rintro ⟨⟨rfl, rfl⟩, rfl⟩
        exact ⟨rfl, wtr, ⟨rfl, rfl⟩, rfl⟩
      · rintro ⟨rfl, wtr', ⟨rfl, rfl⟩, rfl⟩
        exact ⟨⟨rfl, rfl⟩, rfl⟩

/-- A `receive` call returns `Err` exactly when the wait timed out. -/
theorem receiveRun_err_iff (T : Type) (t : RsTimeout) (start : Nat)
    (obs now : Nat → Nat) (curData : T) (fuel : Nat) (e : ShmemLabError)
    (tr : List (Ev T)) :
    receiveRun T t start obs now curData fuel = some (.error e, tr) ↔
      e = .Timeout ∧
      waitLoop T STATE_READY_TO_READ (timeoutAt t start) obs now fuel 0 =
        some (.timedOut, tr) := by
  rw [receiveRun]
  cases hw : waitLoop T STATE_READY_TO_READ (timeoutAt t start) obs now fuel 0 with
  | none => simp
  | some p =>
    obtain ⟨r, wtr⟩ := p
    cases r with
    | timedOut =>
      cases e
      simp [eq_comm]
    | success s => simp

/-! ### The strictly alternating scenario -/

/-- When the channel is in the writer's turn and nothing interferes, `send`
succeeds at the first poll and flips the channel to `READY_TO_READ` with the
payload in the DataWindow. -/
theorem sendStep_ready (T : Type) (c : Channel T) (v : T)
    (h : c.state = STATE_READY_TO_WRITE) :
    sendStep T c v = some { state := STATE_READY_TO_READ, data := v } := by
  simp [sendStep, sendRun, timeoutAt, waitLoop, h, applyEvents, applyEv]

/-- When the channel is in the reader's turn and nothing interferes,
`receive` succeeds at the first poll, returns the DataWindow content, and
flips the channel to `READY_TO_WRITE`. -/
theorem recvStep_ready (T : Type) (c : Channel T)
    (h : c.state = STATE_READY_TO_READ) :
    recvStep T c = some (c.data, { state := STATE_READY_TO_WRITE, data := c.data }) := by
  simp [recvStep, receiveRun, timeoutAt, waitLoop, h, applyEvents, applyEv]

/-- Unfolding: the empty alternating run. -/
theorem runAlt_nil (T : Type) (c : Channel T) : runAlt T c [] = some (c, []) := rfl

/-- Unfolding: one send/receive pair followed by the rest. -/
theorem runAlt_cons (T : Type) (c : Channel T) (v : T) (vs : List T) :
    runAlt T c (v :: vs) =
      match sendStep T c v with
      | none => none
      | some c1 =>
        match recvStep T c1 with
        | none => none
        | some (r, c2) =>
          match runAlt T c2 vs with
          | none => none
          | some (cf, rs) => some (cf, r :: rs) := rfl

/-- A trace of loads and clock reads stores nothing. -/
theorem storesOf_readonly (T : Type) (tr : List (Ev T))
    (h : ∀ e ∈ tr, (∃ u, e = Ev.load u) ∨ ∃ tm, e = Ev.timeCheck tm) :
    storesOf T tr = [] := by
  induction tr with
  | nil => rfl
  | cons e tr ih =>
    have he := h e (List.mem_cons_self e tr)
    have ht := ih (fun e' he' => h e' (List.mem_cons_of_mem e he'))
    rcases he with ⟨u, rfl⟩ | ⟨tm, rfl⟩ <;> simpa [storesOf] using ht

/-- `getLastD` returns the default or a member of the list. -/
theorem getLastD_eq_or_mem (l : List Nat) : ∀ d, l.getLastD d = d ∨ l.getLastD d ∈ l := by
  induction l with
  | nil => intro d; exact Or.inl rfl
  | cons a l ih =>
    intro d
    rw [List.getLastD_cons]
    rcases ih a with h | h
    · right; rw [h]; exact List.mem_cons_self a l
    · exact Or.inr (List.mem_cons_of_mem a h)

/-- A trace whose stores are all valid states carries a valid StateCell to a
valid StateCell. -/
theorem applyEvents_valid (T : Type) (tr : List (Ev T)) (c : Channel T)
    (hsts : ∀ s ∈ storesOf T tr,
      s = STATE_READY_TO_WRITE ∨ s = STATE_READY_TO_READ)
    (hc : c.state = STATE_READY_TO_WRITE ∨ c.state = STATE_READY_TO_READ) :
    (applyEvents T tr c).state = STATE_READY_TO_WRITE ∨
    (applyEvents T tr c).state = STATE_READY_TO_READ := by
  rw [applyEvents_state]
  rcases getLastD_eq_or_mem (storesOf T tr) c.state with h | h
  · rw [h]; exact hc
  · exact hsts _ h

/-! ### The claims -/

/-- Claim C1: `ShmemSender.send` spins until the StateCell equals
`READY_TO_WRITE`, then writes the payload value into the DataWindow (which
`open_shmem` places at offset 8 of the region), then stores
`READY_TO_READ`; symmetrically, `ShmemReceiver.receive` spins until
`READY_TO_READ`, reads the payload, then stores `READY_TO_WRITE`.  In both
operations the payload access happens strictly between observing the
enabling state and storing the opposite state: every successful trace is a
run of wrong-state polls, then the enabling load, then the payload access,
then the opposite store, in that order. -/
theorem C1_protocol_order (T : Type) (v curData : T) (t : RsTimeout) (start : Nat)
    (obs now : Nat → Nat) (fuel : Nat) :
    (∀ (spins : Nat) (tr : List (Ev T)),
      sendRun T v t start obs now fuel = some (.ok spins, tr) →
      ∃ pre, tr = pre ++
          [Ev.load STATE_READY_TO_WRITE, Ev.writeData v, Ev.store STATE_READY_TO_READ] ∧
        ∀ e ∈ pre,
          (∃ u, e = Ev.load u ∧ u ≠ STATE_READY_TO_WRITE) ∨ ∃ tm, e = Ev.timeCheck tm) ∧
    (∀ (rv : T) (spins : Nat) (tr : List (Ev T)),
      receiveRun T t start obs now curData fuel = some (.ok (rv, spins), tr) →
      rv = curData ∧
      ∃ pre, tr = pre ++
          [Ev.load STATE_READY_TO_READ, Ev.readData curData, Ev.store STATE_READY_TO_WRITE] ∧
        ∀ e ∈ pre,
          (∃ u, e = Ev.load u ∧ u ≠ STATE_READY_TO_READ) ∨ ∃ tm, e = Ev.timeCheck tm) ∧
    (open_shmem_layout DEFAULT_SIZE).dataOff = 8 := by
  refine ⟨?_, ?_, rfl⟩
  · intro spins tr h
    obtain ⟨wtr, hw, rfl⟩ := (sendRun_ok_iff T v t start obs now fuel spins tr).mp h
    obtain ⟨_, _, _, pre, rfl, hmem⟩ :=
      waitLoop_success_spec T STATE_READY_TO_WRITE (timeoutAt t start) obs now fuel 0 spins wtr hw
    exact ⟨pre, by simp, hmem⟩
  · intro rv spins tr h
    obtain ⟨rfl, wtr, hw, rfl⟩ :=
      (receiveRun_ok_iff T t start obs now curData rv fuel spins tr).mp h
    obtain ⟨_, _, _, pre, rfl, hmem⟩ :=
      waitLoop_success_spec T STATE_READY_TO_READ (timeoutAt t start) obs now fuel 0 spins wtr hw
    exact ⟨rfl, pre, by simp, hmem⟩

/-- Witness for C1: a concrete send run that polls a wrong state once, then
succeeds; its trace has exactly the claimed shape. -/
theorem C1_protocol_order_witness :
    ∃ pre, [Ev.load 1, Ev.load 2, Ev.writeData 42, Ev.store 3] = pre ++
        [Ev.load STATE_READY_TO_WRITE, Ev.writeData 42, Ev.store STATE_READY_TO_READ] ∧
      ∀ e ∈ pre,
        (∃ u, e = Ev.load u ∧ u ≠ STATE_READY_TO_WRITE) ∨ ∃ tm, e = Ev.timeCheck tm :=
  (C1_protocol_order Nat 42 0 .Infinite 0 (fun i => if i = 0 then 1 else 2)
    (fun _ => 0) 5).1 1 [Ev.load 1, Ev.load 2, Ev.writeData 42, Ev.store 3] (by rfl)

/-- Claim C2: for every sequence of payloads, if the sends and receives on
one channel strictly alternate starting from the writer's turn, the receives
return exactly the sent payloads in order, with no duplication and no loss,
and the channel ends back in the writer's turn. -/
theorem C2_alternating_exact_delivery (T : Type) (c : Channel T) (vs : List T)
    (h : c.state = STATE_READY_TO_WRITE) :
    ∃ cf, runAlt T c vs = some (cf, vs) ∧ cf.state = STATE_READY_TO_WRITE := by
  induction vs generalizing c with
  | nil => exact ⟨c, rfl, h⟩
  | cons v vs ih =>
    have hs := sendStep_ready T c v h
    have hr := recvStep_ready T { state := STATE_READY_TO_READ, data := v } rfl
    obtain ⟨cf, hrun, hcf⟩ := ih { state := STATE_READY_TO_WRITE, data := v } rfl
    refine ⟨cf, ?_, hcf⟩
    rw [runAlt_cons, hs]
    simp only [hr, hrun]

/-- Witness for C2: three alternating send/receive pairs starting from a
fresh channel deliver exactly the three payloads in order. -/
theorem C2_alternating_exact_delivery_witness :
    ∃ cf, runAlt Nat { state := 2, data := 0 } [10, 20, 30] = some (cf, [10, 20, 30]) ∧
      cf.state = STATE_READY_TO_WRITE :=
  C2_alternating_exact_delivery Nat { state := 2, data := 0 } [10, 20, 30] rfl

/-- Claim C3: after initialization the StateCell only ever holds
`READY_TO_WRITE` or `READY_TO_READ`: every store a `send` performs is
`READY_TO_READ`, every store a `receive` performs is `READY_TO_WRITE`, the
`open_shmem` init loop breaks only on (or establishes) one of the two valid
values and stores nothing but `READY_TO_WRITE`, and applying any complete
`send`/`receive` trace to a channel in a valid state leaves it in a valid
state — so the two operations alternate strictly between the two values and
no other value is ever stored. -/
theorem C3_state_invariant (T : Type) (v curData : T) (t : RsTimeout) (start : Nat)
    (obs now loadObs casCur : Nat → Nat) (fuel : Nat) (c : Channel T) :
    (∀ (r : Except ShmemLabError Nat) (tr : List (Ev T)),
      sendRun T v t start obs now fuel = some (r, tr) →
      (∀ s ∈ storesOf T tr, s = STATE_READY_TO_READ) ∧
      (c.state = STATE_READY_TO_WRITE ∨ c.state = STATE_READY_TO_READ →
        (applyEvents T tr c).state = STATE_READY_TO_WRITE ∨
        (applyEvents T tr c).state = STATE_READY_TO_READ)) ∧
    (∀ (r : Except ShmemLabError (T × Nat)) (tr : List (Ev T)),
      receiveRun T t start obs now curData fuel = some (r, tr) →
      (∀ s ∈ storesOf T tr, s = STATE_READY_TO_WRITE) ∧
      (c.state = STATE_READY_TO_WRITE ∨ c.state = STATE_READY_TO_READ →
        (applyEvents T tr c).state = STATE_READY_TO_WRITE ∨
        (applyEvents T tr c).state = STATE_READY_TO_READ)) ∧
    (∀ (i res : Nat) (sts : List Nat),
      openLoop loadObs casCur fuel i = some (res, sts) →
      (res = STATE_READY_TO_WRITE ∨ res = STATE_READY_TO_READ) ∧
      ∀ s ∈ sts, s = STATE_READY_TO_WRITE) := by
  refine ⟨?_, ?_, fun i res sts h => openLoop_spec loadObs casCur fuel i res sts h⟩
  · intro r tr h
    have hsts : ∀ s ∈ storesOf T tr, s = STATE_READY_TO_READ := by
      cases r with
      | ok spins =>
        obtain ⟨wtr, hw, rfl⟩ := (sendRun_ok_iff T v t start obs now fuel spins tr).mp h
        obtain ⟨_, _, _, pre, rfl, hmem⟩ :=
          waitLoop_success_spec T STATE_READY_TO_WRITE (timeoutAt t start) obs now
            fuel 0 spins wtr hw
        have hpre : storesOf T pre = [] := storesOf_readonly T pre (fun e he => by
          rcases hmem e he with ⟨u, rfl, _⟩ | ⟨tm, rfl⟩
          · exact Or.inl ⟨u, rfl⟩
          · exact Or.inr ⟨tm, rfl⟩)
        intro s hs
        simp only [storesOf, List.filterMap_append] at hs
        rw [show List.filterMap _ pre = storesOf T pre from rfl, hpre] at hs
        simpa [storesOf] using hs
      | error e =>
        obtain ⟨rfl, hw⟩ := (sendRun_err_iff T v t start obs now fuel e tr).mp h
        obtain ⟨_, _, _, hmem⟩ :=
          waitLoop_timeout_spec T STATE_READY_TO_WRITE (timeoutAt t start) obs now fuel 0 tr hw
        have : storesOf T tr = [] := storesOf_readonly T tr (fun e he => by
          rcases hmem e he with ⟨u, rfl, _⟩ | ⟨tm, rfl⟩
          · exact Or.inl ⟨u, rfl⟩
          · exact Or.inr ⟨tm, rfl⟩)
        rw [this]
        intro s hs
        simp at hs
    exact ⟨hsts, fun hc =>
      applyEvents_valid T tr c (fun s hs => Or.inr (hsts s hs)) hc⟩
  · intro r tr h
    have hsts : ∀ s ∈ storesOf T tr, s = STATE_READY_TO_WRITE := by
      cases r with
      | ok p =>
        obtain ⟨rv, spins⟩ := p
        obtain ⟨rfl, wtr, hw, rfl⟩ :=
          (receiveRun_ok_iff T t start obs now curData rv fuel spins tr).mp h
        obtain ⟨_, _, _, pre, rfl, hmem⟩ :=
          waitLoop_success_spec T STATE_READY_TO_READ (timeoutAt t start) obs now
            fuel 0 spins wtr hw
        have hpre : storesOf T pre = [] := storesOf_readonly T pre (fun e he => by
          rcases hmem e he with ⟨u, rfl, _⟩ | ⟨tm, rfl⟩
          · exact Or.inl ⟨u, rfl⟩
          · exact Or.inr ⟨tm, rfl⟩)
        intro s hs
        simp only [storesOf, List.filterMap_append] at hs
        rw [show List.filterMap _ pre = storesOf T pre from rfl, hpre] at hs
        simpa [storesOf] using hs
      | error e =>
        obtain ⟨rfl, hw⟩ := (receiveRun_err_iff T t start obs now curData fuel e tr).mp h
        obtain ⟨_, _, _, hmem⟩ :=
          waitLoop_timeout_spec T STATE_READY_TO_READ (timeoutAt t start) obs now fuel 0 tr hw
        have : storesOf T tr = [] := storesOf_readonly T tr (fun e he => by
          rcases hmem e he with ⟨u, rfl, _⟩ | ⟨tm, rfl⟩
          · exact Or.inl ⟨u, rfl⟩
          · exact Or.inr ⟨tm, rfl⟩)
        rw [this]
        intro s hs
        simp at hs
    exact ⟨hsts, fun hc =>
      applyEvents_valid T tr c (fun s hs => Or.inl (hsts s hs)) hc⟩

/-- Witness for C3: a concrete successful send stores only `READY_TO_READ`
and keeps the channel in a valid state; a concrete open-loop run on a fresh
region establishes `READY_TO_WRITE`. -/
theorem C3_state_invariant_witness :
    ((∀ s ∈ storesOf Nat [Ev.load 1, Ev.load 2, Ev.writeData 42, Ev.store 3],
        s = STATE_READY_TO_READ) ∧
      (Channel.state { state := 2, data := 0 } = STATE_READY_TO_WRITE ∨
          Channel.state { state := 2, data := 0 } = STATE_READY_TO_READ →
        (applyEvents Nat [Ev.load 1, Ev.load 2, Ev.writeData 42, Ev.store 3]
            { state := 2, data := 0 }).state = STATE_READY_TO_WRITE ∨
        (applyEvents Nat [Ev.load 1, Ev.load 2, Ev.writeData 42, Ev.store 3]
            { state := 2, data := 0 }).state = STATE_READY_TO_READ)) ∧
    ((0 = STATE_READY_TO_WRITE ∨ 0 = STATE_READY_TO_READ) ∨
      2 = STATE_READY_TO_WRITE ∨ 2 = STATE_READY_TO_READ) :=
  ⟨(C3_state_invariant Nat 42 0 .Infinite 0 (fun i => if i = 0 then 1 else 2)
      (fun _ => 0) (fun _ => 0) (fun _ => 0) 5 { state := 2, data := 0 }).1
      (.ok 1) [Ev.load 1, Ev.load 2, Ev.writeData 42, Ev.store 3] (by rfl),
    Or.inr ((C3_state_invariant Nat 42 0 .Infinite 0 (fun i => if i = 0 then 1 else 2)
      (fun _ => 0) (fun _ => 0) (fun _ => 0) 5 { state := 2, data := 0 }).2.2
      0 2 [2] (by rfl)).1⟩

/-- Claim C4: whenever `send` or `receive` returns the `Timeout` error, its
trace performed no store and no payload write, so the StateCell and the
DataWindow are exactly as they were when the call started, and a subsequent
`send` or `receive` on the same channel behaves exactly as if the timed-out
call had never happened. -/
theorem C4_timeout_no_mutation (T : Type) (v v2 curData : T) (t : RsTimeout)
    (start : Nat) (obs now : Nat → Nat) (fuel : Nat) (c : Channel T) :
    (∀ tr : List (Ev T),
      sendRun T v t start obs now fuel = some (.error .Timeout, tr) →
      applyEvents T tr c = c ∧
      sendStep T (applyEvents T tr c) v2 = sendStep T c v2 ∧
      recvStep T (applyEvents T tr c) = recvStep T c) ∧
    (∀ tr : List (Ev T),
      receiveRun T t start obs now curData fuel = some (.error .Timeout, tr) →
      applyEvents T tr c = c ∧
      sendStep T (applyEvents T tr c) v2 = sendStep T c v2 ∧
      recvStep T (applyEvents T tr c) = recvStep T c) := by
  constructor
  · intro tr h
    obtain ⟨-, hw⟩ := (sendRun_err_iff T v t start obs now fuel .Timeout tr).mp h
    obtain ⟨-, -, -, hmem⟩ :=
      waitLoop_timeout_spec T STATE_READY_TO_WRITE (timeoutAt t start) obs now fuel 0 tr hw
    have he : applyEvents T tr c = c := applyEvents_readonly T tr c (fun e he => by
      rcases hmem e he with ⟨u, rfl, -⟩ | ⟨tm, rfl⟩
      · exact Or.inl ⟨u, rfl⟩
      · exact Or.inr ⟨tm, rfl⟩)
    exact ⟨he, by rw [he], by rw [he]⟩
  · intro tr h
    obtain ⟨-, hw⟩ := (receiveRun_err_iff T t start obs now curData fuel .Timeout tr).mp h
    obtain ⟨-, -, -, hmem⟩ :=
      waitLoop_timeout_spec T STATE_READY_TO_READ (timeoutAt t start) obs now fuel 0 tr hw
    have he : applyEvents T tr c = c := applyEvents_readonly T tr c (fun e he => by
      rcases hmem e he with ⟨u, rfl, -⟩ | ⟨tm, rfl⟩
      · exact Or.inl ⟨u, rfl⟩
      · exact Or.inr ⟨tm, rfl⟩)
    exact ⟨he, by rw [he], by rw [he]⟩

/-- Witness for C4: a concrete timed-out send (the receiver's turn holds, so
the sender polls a wrong state with the deadline already passed) leaves a
concrete channel exactly as it was. -/
theorem C4_timeout_no_mutation_witness :
    applyEvents Nat [Ev.load 3, Ev.timeCheck 1] { state := 3, data := 7 } =
        { state := 3, data := 7 } ∧
      sendStep Nat (applyEvents Nat [Ev.load 3, Ev.timeCheck 1] { state := 3, data := 7 }) 8 =
        sendStep Nat { state := 3, data := 7 } 8 ∧
      recvStep Nat (applyEvents Nat [Ev.load 3, Ev.timeCheck 1] { state := 3, data := 7 }) =
        recvStep Nat { state := 3, data := 7 } :=
  (C4_timeout_no_mutation Nat 42 8 0 (.Val 0) 0 (fun _ => 3) (fun _ => 1) 1
    { state := 3, data := 7 }).1 [Ev.load 3, Ev.timeCheck 1] (by rfl)

/-- Claim C5: the waiting primitive used by `send` and `receive` has exactly
two timeout modes.  `timeout_at` is `None` for `Infinite` and the fixed
deadline `start + dur` for a bounded duration, computed once at the start of
the call; under `Infinite` no call ever returns the `Timeout` error; under a
bounded duration a `Timeout` return means some failed poll `k` saw the clock
past the fixed deadline while every earlier poll both failed and passed its
deadline check against the same fixed deadline; and on success the spin
count is exactly the number of failed poll attempts. -/
theorem C5_wait_primitive (T : Type) (v curData : T) (start dur fuel : Nat)
    (obs now : Nat → Nat) :
    (timeoutAt RsTimeout.Infinite start = none ∧
      timeoutAt (RsTimeout.Val dur) start = some (start + dur)) ∧
    (∀ (e : ShmemLabError) (tr : List (Ev T)),
      sendRun T v .Infinite start obs now fuel ≠ some (.error e, tr) ∧
      receiveRun T .Infinite start obs now curData fuel ≠ some (.error e, tr)) ∧
    (∀ tr : List (Ev T),
      sendRun T v (.Val dur) start obs now fuel = some (.error .Timeout, tr) →
      ∃ k, (∀ j, j ≤ k → obs j ≠ STATE_READY_TO_WRITE) ∧ now k > start + dur ∧
        ∀ j, j < k → now j ≤ start + dur) ∧
    (∀ tr : List (Ev T),
      receiveRun T (.Val dur) start obs now curData fuel = some (.error .Timeout, tr) →
      ∃ k, (∀ j, j ≤ k → obs j ≠ STATE_READY_TO_READ) ∧ now k > start + dur ∧
        ∀ j, j < k → now j ≤ start + dur) ∧
    (∀ (t : RsTimeout) (spins : Nat) (tr : List (Ev T)),
      sendRun T v t start obs now fuel = some (.ok spins, tr) →
      obs spins = STATE_READY_TO_WRITE ∧
        ∀ j, j < spins → obs j ≠ STATE_READY_TO_WRITE) ∧
    (∀ (t : RsTimeout) (spins : Nat) (tr : List (Ev T)),
      receiveRun T t start obs now curData fuel = some (.ok (curData, spins), tr) →
      obs spins = STATE_READY_TO_READ ∧
        ∀ j, j < spins → obs j ≠ STATE_READY_TO_READ) := by
  refine ⟨⟨rfl, rfl⟩, ?_, ?_, ?_, ?_, ?_⟩
  · intro e tr
    constructor
    · intro h
      obtain ⟨-, hw⟩ := (sendRun_err_iff T v .Infinite start obs now fuel e tr).mp h
      obtain ⟨dl, hdl, -, -⟩ :=
        waitLoop_timeout_spec T STATE_READY_TO_WRITE (timeoutAt .Infinite start)
          obs now fuel 0 tr hw
      exact absurd hdl (by simp [timeoutAt])
    · intro h
      obtain ⟨-, hw⟩ := (receiveRun_err_iff T .Infinite start obs now curData fuel e tr).mp h
      obtain ⟨dl, hdl, -, -⟩ :=
        waitLoop_timeout_spec T STATE_READY_TO_READ (timeoutAt .Infinite start)
          obs now fuel 0 tr hw
      exact absurd hdl (by simp [timeoutAt])
  · intro tr h
    obtain ⟨-, hw⟩ := (sendRun_err_iff T v (.Val dur) start obs now fuel .Timeout tr).mp h
    obtain ⟨dl, hdl, ⟨k, -, hk2, hk3, hk4⟩, -⟩ :=
      waitLoop_timeout_spec T STATE_READY_TO_WRITE (timeoutAt (.Val dur) start)
        obs now fuel 0 tr hw
    obtain rfl : dl = start + dur := by simpa [timeoutAt] using hdl.symm
    exact ⟨k, fun j hj => hk2 j (Nat.zero_le j) hj, hk3,
      fun j hj => hk4 j (Nat.zero_le j) hj⟩
  · intro tr h
    obtain ⟨-, hw⟩ :=
      (receiveRun_err_iff T (.Val dur) start obs now curData fuel .Timeout tr).mp h
    obtain ⟨dl, hdl, ⟨k, -, hk2, hk3, hk4⟩, -⟩ :=
      waitLoop_timeout_spec T STATE_READY_TO_READ (timeoutAt (.Val dur) start)
        obs now fuel 0 tr hw
    obtain rfl : dl = start + dur := by simpa [timeoutAt] using hdl.symm
    exact ⟨k, fun j hj => hk2 j (Nat.zero_le j) hj, hk3,
      fun j hj => hk4 j (Nat.zero_le j) hj⟩
  · intro t spins tr h
    obtain ⟨wtr, hw, -⟩ := (sendRun_ok_iff T v t start obs now fuel spins tr).mp h
    obtain ⟨-, h2, h3, -⟩ :=
      waitLoop_success_spec T STATE_READY_TO_WRITE (timeoutAt t start) obs now
        fuel 0 spins wtr hw
    exact ⟨h2, fun j hj => h3 j (Nat.zero_le j) hj⟩
  · intro t spins tr h
    obtain ⟨-, wtr, hw, -⟩ :=
      (receiveRun_ok_iff T t start obs now curData curData fuel spins tr).mp h
    obtain ⟨-, h2, h3, -⟩ :=
      waitLoop_success_spec T STATE_READY_TO_READ (timeoutAt t start) obs now
        fuel 0 spins wtr hw
    exact ⟨h2, fun j hj => h3 j (Nat.zero_le j) hj⟩

/-- Witness for C5: concrete timeout and success runs.  The sender of
`C1`'s scenario succeeds with spin count 1 where exactly the first poll
failed; a bounded receive whose state never turns sees its clock pass the
fixed deadline `10 + 3` and times out. -/
theorem C5_wait_primitive_witness :
    ((fun i => if i = 0 then 1 else 2) 1 = STATE_READY_TO_WRITE ∧
      ∀ j, j < 1 → (fun i => if i = 0 then 1 else 2) j ≠ STATE_READY_TO_WRITE) ∧
    (∃ k, (∀ j, j ≤ k → (fun _ => 2 : Nat → Nat) j ≠ STATE_READY_TO_READ) ∧
      (fun i => 10 + i : Nat → Nat) k > 10 + 3 ∧
      ∀ j, j < k → (fun i => 10 + i : Nat → Nat) j ≤ 10 + 3) :=
  ⟨(C5_wait_primitive Nat 42 0 0 0 5 (fun i => if i = 0 then 1 else 2)
      (fun _ => 0)).2.2.2.2.1 .Infinite 1
      [Ev.load 1, Ev.load 2, Ev.writeData 42, Ev.store 3] (by rfl),
    (C5_wait_primitive Nat 0 99 10 3 10 (fun _ => 2) (fun i => 10 + i)).2.2.2.1
      [Ev.load 2, Ev.timeCheck 10, Ev.load 2, Ev.timeCheck 11, Ev.load 2,
        Ev.timeCheck 12, Ev.load 2, Ev.timeCheck 13, Ev.load 2, Ev.timeCheck 14]
      (by rfl)⟩

/-- Claim C9: if the wanted StateCell value already holds at the first poll,
the call returns success with spin count 0 even under a bounded timeout
whose deadline may already have passed (the clock is arbitrary, including a
zero duration), because the deadline is only checked on a poll that
observed the wrong state; consequently a bounded-timeout call can only
return `Timeout` if some poll observed a state other than the enabling
one. -/
theorem C9_first_poll_success (T : Type) (v curData : T) (start dur fuel : Nat)
    (obs now : Nat → Nat) :
    (obs 0 = STATE_READY_TO_WRITE →
      sendRun T v (.Val dur) start obs now (fuel + 1) =
        some (.ok 0, [Ev.load STATE_READY_TO_WRITE, Ev.writeData v,
          Ev.store STATE_READY_TO_READ])) ∧
    (obs 0 = STATE_READY_TO_READ →
      receiveRun T (.Val dur) start obs now curData (fuel + 1) =
        some (.ok (curData, 0), [Ev.load STATE_READY_TO_READ, Ev.readData curData,
          Ev.store STATE_READY_TO_WRITE])) ∧
    (∀ (t : RsTimeout) (tr : List (Ev T)),
      sendRun T v t start obs now fuel = some (.error .Timeout, tr) →
      ∃ i, obs i ≠ STATE_READY_TO_WRITE) ∧
    (∀ (t : RsTimeout) (tr : List (Ev T)),
      receiveRun T t start obs now curData fuel = some (.error .Timeout, tr) →
      ∃ i, obs i ≠ STATE_READY_TO_READ) := by
  refine ⟨?_, ?_, ?_, ?_⟩
  · intro h
    rw [sendRun, show timeoutAt (.Val dur) start = some (start + dur) from rfl,
      waitLoop_succ_some, if_pos h, h]
    exact rfl
  · intro h
    rw [receiveRun, show timeoutAt (.Val dur) start = some (start + dur) from rfl,
      waitLoop_succ_some, if_pos h, h]
    exact rfl
  · intro t tr h
    obtain ⟨-, hw⟩ := (sendRun_err_iff T v t start obs now fuel .Timeout tr).mp h
    obtain ⟨-, -, ⟨k, -, hk2, -, -⟩, -⟩ :=
      waitLoop_timeout_spec T STATE_READY_TO_WRITE (timeoutAt t start) obs now fuel 0 tr hw
    exact ⟨k, hk2 k (Nat.zero_le k) (le_refl k)⟩
  · intro t tr h
    obtain ⟨-, hw⟩ := (receiveRun_err_iff T t start obs now curData fuel .Timeout tr).mp h
    obtain ⟨-, -, ⟨k, -, hk2, -, -⟩, -⟩ :=
      waitLoop_timeout_spec T STATE_READY_TO_READ (timeoutAt t start) obs now fuel 0 tr hw
    exact ⟨k, hk2 k (Nat.zero_le k) (le_refl k)⟩

/-- Witness for C9: with a zero duration and the clock already far past the
deadline, a send whose first poll sees `READY_TO_WRITE` still succeeds with
spin count 0. -/
theorem C9_first_poll_success_witness :
    sendRun Nat 7 (.Val 0) 0 (fun _ => 2) (fun _ => 1000) 1 =
      some (.ok 0, [Ev.load STATE_READY_TO_WRITE, Ev.writeData 7,
        Ev.store STATE_READY_TO_READ]) :=
  (C9_first_poll_success Nat 7 0 0 0 0 (fun _ => 2) (fun _ => 1000)).1 rfl

/-- Claim C8: after create-or-attach, `open_shmem` inspects the StateCell:
a value that is already `READY_TO_WRITE` or `READY_TO_READ` is left
untouched (no store at all); otherwise it CASes the observed value to
`READY_TO_WRITE`, retrying the whole read-compare-swap cycle when the CAS
fails; whenever the loop returns, the value it observed or established is
one of the two valid states; and on a fresh all-zero region with no
interference it establishes `READY_TO_WRITE`. -/
theorem C8_open_initialization (loadObs casCur : Nat → Nat) (fuel i : Nat) :
    ((loadObs 0 = STATE_READY_TO_WRITE ∨ loadObs 0 = STATE_READY_TO_READ) →
      openLoop loadObs casCur (fuel + 1) 0 = some (loadObs 0, [])) ∧
    (loadObs i ≠ STATE_READY_TO_WRITE → loadObs i ≠ STATE_READY_TO_READ →
      casCur i = loadObs i →
      openLoop loadObs casCur (fuel + 1) i =
        some (STATE_READY_TO_WRITE, [STATE_READY_TO_WRITE])) ∧
    (loadObs i ≠ STATE_READY_TO_WRITE → loadObs i ≠ STATE_READY_TO_READ →
      casCur i ≠ loadObs i →
      openLoop loadObs casCur (fuel + 1) i = openLoop loadObs casCur fuel (i + 1)) ∧
    (∀ (res : Nat) (sts : List Nat),
      openLoop loadObs casCur fuel i = some (res, sts) →
      (res = STATE_READY_TO_WRITE ∨ res = STATE_READY_TO_READ) ∧
      ∀ s ∈ sts, s = STATE_READY_TO_WRITE) ∧
    openLoop (fun _ => 0) (fun _ => 0) (fuel + 1) 0 =
      some (STATE_READY_TO_WRITE, [STATE_READY_TO_WRITE]) := by
  refine ⟨?_, ?_, ?_, fun res sts h => openLoop_spec loadObs casCur fuel i res sts h, ?_⟩
  · intro h
    rcases h with h | h
    · rw [openLoop, if_neg (by rw [h]; decide), if_pos h]
    · rw [openLoop, if_pos h]
  · intro h2 h3 hc
    rw [openLoop, if_neg h3, if_neg h2, if_pos hc]
  · intro h2 h3 hc
    rw [openLoop, if_neg h3, if_neg h2, if_neg hc]
  · rw [openLoop]
    exact rfl

/-- Witness for C8: on a region already initialized to `READY_TO_READ` the
loop leaves it untouched, and on a fresh all-zero region it establishes
`READY_TO_WRITE` via a successful CAS. -/
theorem C8_open_initialization_witness :
    openLoop (fun _ => 3) (fun _ => 3) (4 + 1) 0 = some ((fun _ => 3 : Nat → Nat) 0, []) ∧
    openLoop (fun _ => 0) (fun _ => 0) (4 + 1) 0 =
      some (STATE_READY_TO_WRITE, [STATE_READY_TO_WRITE]) :=
  ⟨(C8_open_initialization (fun _ => 3) (fun _ => 3) 4 0).1 (Or.inr rfl),
    (C8_open_initialization (fun _ => 0) (fun _ => 0) 4 0).2.2.2.2⟩

/-- Claim C10: both `ShmemSender::open` and `ShmemReceiver::open` open a
region of the fixed size `DEFAULT_SIZE = 64*1024` bytes regardless of
`size_of::<T>()`; the StateCell occupies the first 8 bytes (offset 0) and
the payload pointer is base + 8; the bytes `send` writes (and `receive`
reads) all lie inside the region precisely when
`size_of::<T>() ≤ 64*1024 − 8`, and no operation checks this, so it is a
precondition. -/
theorem C10_fixed_size_layout (tSize : Nat) :
    senderOpen tSize = open_shmem_layout DEFAULT_SIZE ∧
    receiverOpen tSize = open_shmem_layout DEFAULT_SIZE ∧
    (senderOpen tSize).size = 64 * 1024 ∧
    (senderOpen tSize).stateOff = 0 ∧
    (senderOpen tSize).dataOff = 8 ∧
    ((∀ off ∈ sendWriteBytes (senderOpen tSize) tSize, off < (senderOpen tSize).size) ↔
      tSize ≤ 64 * 1024 - 8) := by
  refine ⟨rfl, rfl, rfl, rfl, rfl, ?_⟩
  constructor
  · intro h
    by_cases h0 : tSize = 0
    · simp [h0]
    · have hm : 8 + (tSize - 1) ∈ sendWriteBytes (senderOpen tSize) tSize := by
        simp only [sendWriteBytes, List.mem_map, List.mem_range]
        exact ⟨tSize - 1, by omega, rfl⟩
      have := h _ hm
      have hsz : (senderOpen tSize).size = 65536 := rfl
      rw [hsz] at this
      omega
  · intro h off hoff
    simp only [sendWriteBytes, List.mem_map, List.mem_range] at hoff
    obtain ⟨k, hk, rfl⟩ := hoff
    have hsz : (senderOpen tSize).size = 65536 := rfl
    rw [hsz]
    have hd : (senderOpen tSize).dataOff = 8 := rfl
    rw [hd]
    omega

/-- A 4-byte little-endian write followed by a little-endian read is the
identity on values below `2^32`. -/
theorem read_write_u32 (n : Nat) (h : n < 4294967296) :
    read_u32_le (write_u32_le n) = n := by
  simp [read_u32_le, write_u32_le]
  omega

/-- Claim C6: for every payload whose serialized size `P` satisfies
`P ≤ capacity − 5`, writing the envelope (4-byte little-endian length
prefix followed by exactly that many content bytes, as `shmem_ping_send`
does) into the window and then decoding it (reading the prefix, taking
exactly that many bytes, parsing, as `shmem_ping_receive` does) yields the
original payload. -/
theorem C6_envelope_roundtrip (P : Type) (ser : P → List Nat)
    (de : List Nat → Option P) (m : P) (window : List Nat)
    (hde : de (ser m) = some m)
    (hlen : (ser m).length ≤ MESSAGE_SHMEM_SIZE - 5)
    (hw : window.length = MESSAGE_SHMEM_SIZE) :
    ∃ enc, shmem_ping_encode (ser m) window = some enc ∧
      shmem_ping_decode enc = some (ser m) ∧
      (shmem_ping_decode enc).bind de = some m := by
  have hL : (ser m).length ≤ 32763 := by
    rw [show MESSAGE_SHMEM_SIZE - 5 = 32763 from rfl] at hlen
    exact hlen
  have hwl : window.length = 32768 := by
    rw [hw]; rfl
  have hmod : (ser m).length % 4294967296 = (ser m).length :=
    Nat.mod_eq_of_lt (by omega)
  have hp4 : (write_u32_le ((ser m).length % 4294967296)).length = 4 := rfl
  have hguard : 4 + (ser m).length ≤ window.length := by omega
  have e1 : writeAt Nat window 0 (write_u32_le ((ser m).length % 4294967296)) =
      write_u32_le ((ser m).length % 4294967296) ++ window.drop 4 := by
    rw [writeAt, List.take_zero, List.nil_append, hp4]
  have e2 : writeAt Nat (write_u32_le ((ser m).length % 4294967296) ++ window.drop 4)
        4 (ser m) =
      write_u32_le ((ser m).length % 4294967296) ++
        (ser m ++ (window.drop 4).drop (ser m).length) := by
    rw [writeAt, List.take_left' hp4,
      show (4 : Nat) + (ser m).length =
        (write_u32_le ((ser m).length % 4294967296)).length + (ser m).length from by
          rw [hp4],
      List.drop_append, List.append_assoc]
  have henc : shmem_ping_encode (ser m) window =
      some (write_u32_le ((ser m).length % 4294967296) ++
        (ser m ++ (window.drop 4).drop (ser m).length)) := by
    rw [shmem_ping_encode, if_pos hguard, e1, e2]
  have hread : read_u32_le (write_u32_le ((ser m).length % 4294967296)) =
      (ser m).length := by
    rw [hmod]
    exact read_write_u32 (ser m).length (by omega)
  have hlenenc : (write_u32_le ((ser m).length % 4294967296) ++
      (ser m ++ (window.drop 4).drop (ser m).length)).length = 32768 := by
    rw [List.length_append, List.length_append, List.length_drop, List.length_drop,
      hp4, hwl]
    omega
  have hdec : shmem_ping_decode (write_u32_le ((ser m).length % 4294967296) ++
      (ser m ++ (window.drop 4).drop (ser m).length)) = some (ser m) := by
    rw [shmem_ping_decode]
    show (if read_u32_le ((write_u32_le ((ser m).length % 4294967296) ++
          (ser m ++ (window.drop 4).drop (ser m).length)).take 4) + 4 ≤
          (write_u32_le ((ser m).length % 4294967296) ++
            (ser m ++ (window.drop 4).drop (ser m).length)).length
        then some (((write_u32_le ((ser m).length % 4294967296) ++
          (ser m ++ (window.drop 4).drop (ser m).length)).drop 4).take
            (read_u32_le ((write_u32_le ((ser m).length % 4294967296) ++
              (ser m ++ (window.drop 4).drop (ser m).length)).take 4)))
        else none) = some (ser m)
    rw [List.take_left' hp4, hread, hlenenc, if_pos (by omega),
      List.drop_left' hp4, List.take_left]
  exact ⟨_, henc, hdec, by rw [hdec]; simp [hde]⟩

/-- Witness for C6: the two-byte payload `[65, 66]` round-trips through a
zeroed window under the identity serializer. -/
theorem C6_envelope_roundtrip_witness :
    ∃ enc, shmem_ping_encode [65, 66] (List.replicate MESSAGE_SHMEM_SIZE 0) = some enc ∧
      shmem_ping_decode enc = some [65, 66] ∧
      (shmem_ping_decode enc).bind some = some [65, 66] :=
  C6_envelope_roundtrip (List Nat) (fun x => x) some [65, 66]
    (List.replicate MESSAGE_SHMEM_SIZE 0) rfl (by decide)
    (List.length_replicate MESSAGE_SHMEM_SIZE 0)

/-- Counterexample for C7: decoding a buffer whose 4-byte length prefix
(32765) exceeds the remaining capacity (32764 bytes after the prefix) does
not produce any reported error value — the slice operation
`&response[4..n+4]` panics, modelled as `none` — and the program's error
type `ShmemLabError` has exactly one inhabitant (`Timeout`), so
`FramingError` (and `RegionError`) are not among the error kinds any
operation can return. -/
theorem C7_counterexample :
    shmem_ping_decode badResponse = none ∧ Fintype.card ShmemLabError = 1 := by
  refine ⟨?_, rfl⟩
  have hn : read_u32_le (badResponse.take 4) = 32765 := by
    rw [show badResponse.take 4 = [253, 127, 0, 0] from rfl]
    norm_num [read_u32_le]
  have hlen : badResponse.length = 32768 := by
    rw [show badResponse = 253 :: 127 :: 0 :: 0 :: List.replicate 32764 0 from rfl]
    rw [List.length_cons, List.length_cons, List.length_cons, List.length_cons,
      List.length_replicate]
  rw [shmem_ping_decode]
  show (if read_u32_le (badResponse.take 4) + 4 ≤ badResponse.length
      then some ((badResponse.drop 4).take (read_u32_le (badResponse.take 4))) else none) =
    none
  rw [hn, hlen]
  norm_num

/-- Claim C7 (amended): decoding a received buffer whose 4-byte length
prefix exceeds the remaining capacity of the buffer panics (slice index out
of range, modelled as `none`) rather than returning a reported error value,
and the only error kind the system's operations can return is `Timeout`:
the error type has exactly one inhabitant, with no `FramingError` and no
`RegionError`. -/
theorem C7_oversized_prefix_panics (response : List Nat)
    (h : read_u32_le (response.take 4) + 4 > response.length) :
    shmem_ping_decode response = none ∧ Fintype.card ShmemLabError = 1 := by
  refine ⟨?_, rfl⟩
  rw [shmem_ping_decode]
  show (if read_u32_le (response.take 4) + 4 ≤ response.length
      then some ((response.drop 4).take (read_u32_le (response.take 4))) else none) = none
  rw [if_neg (by omega)]

/-- Witness for the amended C7: the oversized-prefix buffer `badResponse`
satisfies the hypothesis and decodes to a panic. -/
theorem C7_oversized_prefix_panics_witness :
    shmem_ping_decode badResponse = none ∧ Fintype.card ShmemLabError = 1 :=
  C7_oversized_prefix_panics badResponse (by
    rw [show badResponse.take 4 = [253, 127, 0, 0] from rfl,
      show badResponse = 253 :: 127 :: 0 :: 0 :: List.replicate 32764 0 from rfl,
      List.length_cons, List.length_cons, List.length_cons, List.length_cons,
      List.length_replicate]
    norm_num [read_u32_le])

end LatencyLab
